import Mathlib

/-!
Shallow embedding of the worksheet logic of `spreadsheet/sheet.go`
(package `spreadsheet` of the gooxml/unioffice repository).

The Go code manipulates a worksheet tree (`sml.Worksheet`) holding an
ordered sequence of rows (`ws.SheetData.Row`, a slice of `*sml.CT_Row`),
each row holding an ordered sequence of cells, plus an optional drawing
reference.  We embed:

* row numbers (`uint32` in Go) as `Nat`; arithmetic that can overflow in
  Go (`maxRowID + 1` in `AddRow`) is taken modulo `2 ^ 32`;
* pointers to rows as indices into the row sequence (Go `Row` handles
  wrap a `*CT_Row` taken from the slice, so "same pointer" is "same
  index" in a fixed sequence);
* pointers to worksheet trees and drawing definitions as `Nat`
  identifiers; the workbook-level state carries a heap (list) of
  worksheet trees so that identity-based lookup (`wks == s.ws`,
  `dr == d.x` in Go) is equality of identifiers;
* the delegated validators (`s.x.Validate`, `s.x.ValidateWithPath`,
  `s.ws.Validate`), which live in other packages of the repository and
  are external collaborators per the spec, as oracle result fields
  carried by the metadata record and the worksheet tree.

Mutating Go methods become state-passing functions returning the updated
state together with the handle the Go method returns.
-/

set_option autoImplicit false

namespace Spreadsheet

/-- Embedding of `sml.CT_Cell` restricted to what `sheet.go` reads: the
optional cell address `c.RAttr` (a `*string` in Go, `nil` = unassigned). -/
structure CT_Cell where
  RAttr : Option String
deriving DecidableEq, Repr

/-- Embedding of `sml.CT_Row` restricted to what `sheet.go` uses: the
optional row number `r.RAttr` (a `*uint32` in Go, `nil` = unassigned) and
the ordered cell sequence `r.C`.  Well-formed states keep every assigned
row number below `2 ^ 32`. -/
structure CT_Row where
  RAttr : Option Nat
  C : List CT_Cell
deriving DecidableEq, Repr

/-- Embedding of `sml.CT_Drawing`: the relationship identifier string
`IdAttr` recorded on the worksheet as its drawing reference. -/
structure CT_Drawing where
  IdAttr : String
deriving DecidableEq, Repr

/-- Embedding of the worksheet tree `sml.Worksheet` restricted to what
`sheet.go` uses: the row sequence `ws.SheetData.Row`, the optional
drawing reference `ws.Drawing`, and an oracle field `validateRes` giving
the result of the tree's own schema-level validator `ws.Validate()`
(`none` = success, `some e` = failure with message `e`), which is an
external collaborator defined outside this file's source. -/
structure Worksheet where
  sheetData : List CT_Row
  drawing : Option CT_Drawing
  validateRes : Option String
deriving DecidableEq, Repr

/-- Embedding of the sheet metadata record `sml.CT_Sheet` restricted to
what `sheet.go` uses: the display name `NameAttr`, and oracle fields for
the delegated metadata validators `x.Validate()` and
`x.ValidateWithPath(path)`, external collaborators defined outside this
file's source (`none` = success). -/
structure CT_Sheet where
  NameAttr : String
  validateRes : Option String
  validateWithPathRes : String → Option String

/-- A `Row` handle as returned by the Go methods: `Row{s.w, r}` wraps a
pointer `r` into the row sequence, embedded as the index of that row in
the sheet's row sequence.  The workbook back-reference `s.w` carried by
the Go handle is never consulted by the operations modelled here. -/
structure Row where
  r : Nat
deriving DecidableEq, Repr

/-- Scan of the Go loop in `EnsureRow`: index of the first row `r` with
`r.RAttr != nil && *r.RAttr == rowNum`, in stored order. -/
def findRowIdx : List CT_Row → Nat → Option Nat
  | [], _ => none
  | r :: rs, n =>
    if r.RAttr = some n then some 0
    else (findRowIdx rs n).map (· + 1)

/-- Embedding of `Sheet.AddNumberedRow`: unconditionally append a fresh
row (`sml.NewCT_Row()` with `RAttr` set to the given number and no
cells) to the end of the row sequence, and return the handle wrapping
the appended row. -/
def AddNumberedRow (ws : Worksheet) (rowNum : Nat) : Worksheet × Row :=
  ({ ws with sheetData := ws.sheetData ++ [{ RAttr := some rowNum, C := [] }] },
   { r := ws.sheetData.length })

/-- Embedding of `Sheet.EnsureRow`: return the first existing row whose
explicit number equals `rowNum`; otherwise delegate to
`AddNumberedRow`. -/
def EnsureRow (ws : Worksheet) (rowNum : Nat) : Worksheet × Row :=
  match findRowIdx ws.sheetData rowNum with
  | some i => (ws, { r := i })
  | none => AddNumberedRow ws rowNum

/-- One step of the `maxRowID` loop of `Sheet.AddRow`: take the row's
explicit number when it is assigned and exceeds the running maximum. -/
def maxStep (m : Nat) (r : CT_Row) : Nat :=
  match r.RAttr with
  | some n => if n > m then n else m
  | none => m

/-- The `maxRowID` computation of `Sheet.AddRow`: maximum explicit row
number among existing rows, rows with `RAttr == nil` contributing
nothing, starting from `0`. -/
def maxRowID (rows : List CT_Row) : Nat :=
  rows.foldl maxStep 0

/-- Embedding of `Sheet.AddRow`: delegate to `AddNumberedRow` with
`maxRowID + 1`.  The addition is `uint32` arithmetic in Go, hence taken
modulo `2 ^ 32`. -/
def AddRow (ws : Worksheet) : Worksheet × Row :=
  AddNumberedRow ws ((maxRowID ws.sheetData + 1) % 2 ^ 32)

/-- Embedding of `Sheet.Rows`: one handle per stored row, in stored
order (handle `i` wraps the pointer to the `i`-th row of the
sequence). -/
def Rows (ws : Worksheet) : List Row :=
  (List.range ws.sheetData.length).map Row.mk

/-- Result type of `Sheet.Validate`: the two duplicate errors built by
`fmt.Errorf` in `sheet.go` (carrying the sheet name and the reused
identifier) and the errors propagated from the two delegated
validators. -/
inductive VError where
  | reusedRow (sheet : String) (n : Nat)
  | reusedCell (sheet : String) (addr : String)
  | metaErr (e : String)
  | wsErr (e : String)
deriving DecidableEq, Repr

/-- The inner cell loop of `Sheet.Validate`: scan the cells in stored
order with a seen-set of addresses (the Go `usedCells` map, embedded as
a list with membership), skipping cells with `c.RAttr == nil`, and
return the first reused address, if any. -/
def checkCells (seen : List String) : List CT_Cell → Option String
  | [] => none
  | c :: cs =>
    match c.RAttr with
    | none => checkCells seen cs
    | some a => if a ∈ seen then some a else checkCells (a :: seen) cs

/-- The row loop of `Sheet.Validate`: scan rows in stored order with a
seen-set of row numbers (the Go `usedRows` map).  For each row, first
the duplicate-row check on its explicit number (rows with
`RAttr == nil` are skipped), then the per-row cell scan with a fresh
seen-cell set.  Returns the first duplicate error, if any. -/
def checkRows (name : String) (seen : List Nat) : List CT_Row → Option VError
  | [] => none
  | r :: rs =>
    match r.RAttr with
    | some n =>
      if n ∈ seen then some (.reusedRow name n)
      else
        match checkCells [] r.C with
        | some a => some (.reusedCell name a)
        | none => checkRows name (n :: seen) rs
    | none =>
      match checkCells [] r.C with
      | some a => some (.reusedCell name a)
      | none => checkRows name seen rs

/-- Embedding of `Sheet.Validate`: the duplicate row/cell pass over the
row sequence, then `s.x.Validate()`, then `s.ws.Validate()`; the first
failure wins. -/
def Validate (x : CT_Sheet) (ws : Worksheet) : Option VError :=
  match checkRows x.NameAttr [] ws.sheetData with
  | some e => some e
  | none =>
    match x.validateRes with
    | some e => some (.metaErr e)
    | none => ws.validateRes.map .wsErr

/-- Embedding of `Sheet.ValidateWithPath`: returns exactly
`s.x.ValidateWithPath(path)`.  The worksheet tree `ws` is in scope for
the Go method (it is a method on `Sheet`) but is not consulted. -/
def ValidateWithPath (x : CT_Sheet) (ws : Worksheet) (path : String) : Option String :=
  x.validateWithPathRes path

/-- Embedding of the relevant part of `gooxml.DocType`: the document
type tag passed by `SetDrawing` is `gooxml.DocTypeSpreadsheet`. -/
inductive DocType where
  | spreadsheet
  | other
deriving DecidableEq, Repr

/-- The relationship type tag `gooxml.DrawingType` identifying a drawing
relationship. -/
def drawingType : String :=
  "http://schemas.openxmlformats.org/officeDocument/2006/relationships/drawing"

/-- Modelled from the spec: a `Relationship` entry of a per-worksheet
relationship set (package `common`, not part of the embedded source),
with its assigned identifier string (exposed in Go by the `ID()`
accessor) and the document type tag, 1-based part index and relationship
type tag it was registered with. -/
structure Relationship where
  ID : String
  docType : DocType
  partIndex : Nat
  relType : String
deriving DecidableEq, Repr

/-- Modelled from the spec: a per-worksheet relationship set
(`common.Relationships`, not part of the embedded source), an ordered
collection of relationship entries. -/
structure Relationships where
  rels : List Relationship
deriving DecidableEq, Repr

/-- Modelled from the spec: `Relationships.AddAutoRelationship` appends
one new relationship entry carrying the given document type tag, part
index and relationship type tag, and returns it; the returned entry's
`ID()` yields its assigned identifier string.  The spec leaves the
identifier scheme abstract beyond uniqueness; it is made concrete here
(`rId` followed by the 1-based position in the set), and no claim
depends on the scheme. -/
def addAutoRelationship (rs : Relationships) (dt : DocType) (idx : Nat)
    (t : String) : Relationships × Relationship :=
  let rel : Relationship :=
    { ID := "rId" ++ toString (rs.rels.length + 1),
      docType := dt, partIndex := idx, relType := t }
  ({ rels := rs.rels ++ [rel] }, rel)

/-- The workbook-level state consumed by `SetDrawing`: a heap of
allocated worksheet trees (pointers are indices into `heap`), the
workbook's tracked worksheet-tree pointers `w.xws`, the positionally
aligned relationship sets `w.xwsRels`, and the tracked
drawing-definition pointers `w.drawings` (opaque identifiers; only
pointer identity matters to `sheet.go`). -/
structure Workbook where
  heap : List Worksheet
  xws : List Nat
  xwsRels : List Relationships
  drawings : List Nat
deriving Repr

/-- Embedding of the `Sheet` handle for the drawing layer: the metadata
record `s.x` and the pointer `s.ws` to the sheet's worksheet tree. -/
structure Sheet where
  x : CT_Sheet
  ws : Nat

/-- Embedding of the `Drawing` handle: the pointer `d.x` to the drawing
definition tracked (or not) by the workbook. -/
structure Drawing where
  x : Nat
deriving DecidableEq, Repr

/-- Index of the first occurrence of a pointer in a pointer list; the
identity-based linear scans of `SetDrawing` (`wks == s.ws`,
`dr == d.x`) with their `break` on first match. -/
def firstIdxAt : List Nat → Nat → Option Nat
  | [], _ => none
  | x :: xs, t =>
    if x = t then some 0 else (firstIdxAt xs t).map (· + 1)

/-- Embedding of `Sheet.SetDrawing`.  Resolve the relationship set
aligned with the first tracked worksheet tree identical to `s.ws`;
resolve the first tracked drawing definition identical to `d.x`; when
both lookups succeed, register one auto relationship with document type
`spreadsheet`, part index `j + 1` and type tag `drawingType` in that
relationship set and take its identifier; finally, unconditionally
overwrite the worksheet tree's drawing reference with a fresh
`CT_Drawing` carrying that identifier (the empty string when either
lookup missed).  The miss path of the relationship-set registration is
modelled from the spec: when either lookup fails, no relationship entry
is created anywhere (the zero-value `common.Relationships` of the Go
code is outside the embedded source).  Accessing `w.xwsRels` at the
resolved position uses a default for an out-of-range index; claims about
the hit path assume the spec's alignment invariant, under which the
index is in range. -/
def SetDrawing (w : Workbook) (s : Sheet) (d : Drawing) : Workbook :=
  let step : List Relationships × String :=
    match firstIdxAt w.drawings d.x with
    | none => (w.xwsRels, "")
    | some j =>
      match firstIdxAt w.xws s.ws with
      | none => (w.xwsRels, "")
      | some i =>
        let add := addAutoRelationship (w.xwsRels.getD i { rels := [] })
          DocType.spreadsheet (j + 1) drawingType
        (w.xwsRels.set i add.1, add.2.ID)
  let newHeap :=
    match w.heap.get? s.ws with
    | none => w.heap
    | some t => w.heap.set s.ws { t with drawing := some { IdAttr := step.2 } }
  { w with xwsRels := step.1, heap := newHeap }

/-- The explicit row numbers of a row sequence, in stored order,
unnumbered rows omitted. -/
def rowNums (rows : List CT_Row) : List Nat :=
  rows.filterMap CT_Row.RAttr

/-- The explicit cell addresses of a row, in stored order, unaddressed
cells omitted. -/
def cellAddrs (r : CT_Row) : List String :=
  r.C.filterMap CT_Cell.RAttr

/-! Concrete states used in counterexamples and witnesses. -/

/-- An empty worksheet tree with no rows, no drawing reference and a
succeeding tree-level validator. -/
def emptyWS : Worksheet :=
  { sheetData := [], drawing := none, validateRes := none }

/-- Sheet metadata named `S` whose delegated validators succeed. -/
def metaOK : CT_Sheet :=
  { NameAttr := "S", validateRes := none, validateWithPathRes := fun _ => none }

/-- Sheet metadata named `S` whose `Validate()` delegate fails. -/
def metaFail : CT_Sheet :=
  { NameAttr := "S", validateRes := some "meta invalid", validateWithPathRes := fun _ => none }

/-- Worksheet built by appending rows numbered 5, then 2, then 8. -/
def ws528 : Worksheet :=
  (AddNumberedRow (AddNumberedRow (AddNumberedRow emptyWS 5).1 2).1 8).1

/-- Worksheet with rows numbered 1, 2, 5 and per-row-distinct cell
addresses. -/
def wsDistinct : Worksheet :=
  { sheetData :=
      [{ RAttr := some 1, C := [{ RAttr := some "A1" }, { RAttr := some "B1" }] },
       { RAttr := some 2, C := [{ RAttr := some "A1" }] },
       { RAttr := some 5, C := [{ RAttr := some "A5" }, { RAttr := some "B5" }] }],
    drawing := none, validateRes := none }

/-- Worksheet holding both kinds of duplicates: an unnumbered first row
with cell address `A1` twice, followed by two rows both numbered 3. -/
def wsBothDup : Worksheet :=
  { sheetData :=
      [{ RAttr := none, C := [{ RAttr := some "A1" }, { RAttr := some "A1" }] },
       { RAttr := some 3, C := [] },
       { RAttr := some 3, C := [] }],
    drawing := none, validateRes := none }

/-- Worksheet with two rows both numbered 3 and no cells. -/
def wsDupRow : Worksheet :=
  { sheetData := [{ RAttr := some 3, C := [] }, { RAttr := some 3, C := [] }],
    drawing := none, validateRes := none }

/-- Worksheet with a single row numbered 3. -/
def wsRow3 : Worksheet :=
  { sheetData := [{ RAttr := some 3, C := [] }], drawing := none, validateRes := none }

/-- Worksheet with a single unnumbered row. -/
def wsUnnumbered : Worksheet :=
  { sheetData := [{ RAttr := none, C := [] }], drawing := none, validateRes := none }

/-- Worksheet whose single row carries the maximum `uint32` row
number. -/
def wsMax : Worksheet :=
  { sheetData := [{ RAttr := some (2 ^ 32 - 1), C := [] }],
    drawing := none, validateRes := none }

/-- Workbook tracking one worksheet tree (pointer 0, aligned with one
empty relationship set) and one drawing definition (pointer 7). -/
def wbLinked : Workbook :=
  { heap := [emptyWS], xws := [0], xwsRels := [{ rels := [] }], drawings := [7] }

/-- Sheet handle over tree pointer 0. -/
def sheet0 : Sheet := { x := metaOK, ws := 0 }

/-- Drawing handle over definition pointer 7. -/
def draw7 : Drawing := { x := 7 }

/-- Workbook holding tree pointer 0 in its heap but not tracking it in
`xws`, while tracking drawing definition pointer 5. -/
def wbUntracked : Workbook :=
  { heap := [emptyWS], xws := [], xwsRels := [], drawings := [5] }

/-- Drawing handle over definition pointer 5. -/
def draw5 : Drawing := { x := 5 }

/-! Helper lemmas about the row lookup scan. -/

theorem findRowIdx_eq_none {rows : List CT_Row} {n : Nat} :
    findRowIdx rows n = none ↔ ∀ r ∈ rows, r.RAttr ≠ some n := by
  induction rows with
  | nil => simp [findRowIdx]
  | cons r rs ih =>
    by_cases h : r.RAttr = some n <;>
      simp [findRowIdx, h, ih]

theorem findRowIdx_append_of_none {rows : List CT_Row} {n : Nat} {c : List CT_Cell}
    (h : findRowIdx rows n = none) :
    findRowIdx (rows ++ [{ RAttr := some n, C := c }]) n = some rows.length := by
  induction rows with
  | nil => simp [findRowIdx]
  | cons r rs ih =>
    rw [findRowIdx] at h
    by_cases hr : r.RAttr = some n
    · simp [hr] at h
    · simp only [hr, if_false, Option.map_eq_none'] at h
      simp [findRowIdx, hr, ih h]

theorem findRowIdx_get {rows : List CT_Row} {n i : Nat}
    (h : findRowIdx rows n = some i) :
    ∃ r, rows.get? i = some r ∧ r.RAttr = some n := by
  induction rows generalizing i with
  | nil => simp [findRowIdx] at h
  | cons r rs ih =>
    rw [findRowIdx] at h
    by_cases hr : r.RAttr = some n
    · simp only [hr, if_true, Option.some.injEq] at h
      exact ⟨r, by simp [← h], hr⟩
    · simp only [hr, if_false, Option.map_eq_some'] at h
      obtain ⟨j, hj, rfl⟩ := h
      obtain ⟨r', hr', hn⟩ := ih hj
      exact ⟨r', by simpa using hr', hn⟩

theorem findRowIdx_first {rows : List CT_Row} {n i : Nat} {r : CT_Row}
    (hget : rows.get? i = some r) (hn : r.RAttr = some n)
    (hfirst : ∀ k, k < i → ∀ r', rows.get? k = some r' → r'.RAttr ≠ some n) :
    findRowIdx rows n = some i := by
  induction rows generalizing i with
  | nil => simp at hget
  | cons r0 rs ih =>
    cases i with
    | zero =>
      simp only [List.get?_cons_zero, Option.some.injEq] at hget
      subst hget
      simp [findRowIdx, hn]
    | succ j =>
      have h0 : r0.RAttr ≠ some n :=
        hfirst 0 (Nat.succ_pos j) r0 rfl
      have hrec : findRowIdx rs n = some j := by
        refine ih (by simpa using hget) ?_
        intro k hk r' hget'
        exact hfirst (k + 1) (Nat.succ_lt_succ hk) r' (by simpa using hget')
      simp [findRowIdx, h0, hrec]

theorem findRowIdx_lt {rows : List CT_Row} {n i : Nat}
    (h : findRowIdx rows n = some i) : i < rows.length := by
  obtain ⟨r, hr, -⟩ := findRowIdx_get h
  exact List.get?_eq_some.mp hr |>.choose

/-! Helper lemmas about the maximum-row-number fold of `AddRow`. -/

theorem le_maxStep (a : Nat) (r : CT_Row) : a ≤ maxStep a r := by
  cases hr : r.RAttr with
  | none => simp [maxStep, hr]
  | some n =>
    by_cases hn : n > a <;> simp [maxStep, hr, hn]
    omega

theorem maxStep_of_some {a m : Nat} {r : CT_Row} (hm : r.RAttr = some m) :
    m ≤ maxStep a r := by
  by_cases hma : m > a <;> simp [maxStep, hm, hma]
  omega

theorem le_foldl_maxStep (rows : List CT_Row) (a : Nat) :
    a ≤ rows.foldl maxStep a := by
  induction rows generalizing a with
  | nil => simp
  | cons r rs ih =>
    exact le_trans (le_maxStep a r) (ih _)

theorem le_maxRowID_foldl {rows : List CT_Row} {r : CT_Row} {m : Nat}
    (hmem : r ∈ rows) (hm : r.RAttr = some m) (a : Nat) :
    m ≤ rows.foldl maxStep a := by
  induction rows generalizing a with
  | nil => simp at hmem
  | cons r0 rs ih =>
    rcases List.mem_cons.mp hmem with rfl | hmem'
    · exact le_trans (maxStep_of_some hm) (le_foldl_maxStep rs _)
    · exact ih hmem' _

theorem le_maxRowID {rows : List CT_Row} {r : CT_Row} {m : Nat}
    (hmem : r ∈ rows) (hm : r.RAttr = some m) : m ≤ maxRowID rows :=
  le_maxRowID_foldl hmem hm 0

theorem maxRowID_of_unnumbered {rows : List CT_Row}
    (h : ∀ r ∈ rows, r.RAttr = none) : maxRowID rows = 0 := by
  have aux : ∀ (l : List CT_Row) (a : Nat), (∀ r ∈ l, r.RAttr = none) →
      l.foldl maxStep a = a := by
    intro l
    induction l with
    | nil => intro a _; rfl
    | cons r rs ih =>
      intro a hl
      have h0 : r.RAttr = none := hl r (List.mem_cons_self r rs)
      have hrest : ∀ r' ∈ rs, r'.RAttr = none :=
        fun r' hr' => hl r' (List.mem_cons_of_mem r hr')
      simp only [List.foldl_cons, maxStep, h0]
      exact ih a hrest
  exact aux rows 0 h

/-! Helper lemmas about the duplicate-cell scan. -/

theorem checkCells_eq_none_iff {cs : List CT_Cell} {seen : List String} :
    checkCells seen cs = none ↔
      (cs.filterMap CT_Cell.RAttr).Nodup ∧
        ∀ a ∈ cs.filterMap CT_Cell.RAttr, a ∉ seen := by
  induction cs generalizing seen with
  | nil => simp [checkCells]
  | cons c cs ih =>
    cases hc : c.RAttr with
    | none => simp [checkCells, hc, List.filterMap_cons, ih]
    | some b =>
      by_cases hb : b ∈ seen
      · simp only [checkCells, hc, hb, if_true, List.filterMap_cons]
        constructor
        · intro h; exact absurd h (by simp)
        · rintro ⟨-, h2⟩
          exact absurd (h2 b (by simp)) (by simp [hb])
      · simp only [checkCells, hc, hb, if_false, List.filterMap_cons, ih,
          List.nodup_cons, List.mem_cons]
        constructor
        · rintro ⟨hnd, hall⟩
          refine ⟨⟨fun hbl => ?_, hnd⟩, fun a ha => ?_⟩
          · exact (hall b hbl) (by simp)
          · rcases ha with rfl | ha'
            · exact hb
            · intro hs
              exact (hall a ha') (by simp [hs])
        · rintro ⟨⟨hbl, hnd⟩, hall⟩
          refine ⟨hnd, fun a ha => ?_⟩
          simp only [List.mem_cons, not_or]
          exact ⟨fun h => hbl (h ▸ ha), hall a (Or.inr ha)⟩

theorem checkCells_some {cs : List CT_Cell} {seen : List String} {a : String}
    (h : checkCells seen cs = some a) :
    (a ∈ seen ∧ a ∈ cs.filterMap CT_Cell.RAttr) ∨
      2 ≤ (cs.filterMap CT_Cell.RAttr).count a := by
  induction cs generalizing seen with
  | nil => simp [checkCells] at h
  | cons c cs ih =>
    cases hc : c.RAttr with
    | none =>
      rw [checkCells, hc] at h
      rcases ih h with ⟨h1, h2⟩ | h3
      · exact Or.inl ⟨h1, by simp [List.filterMap_cons, hc, h2]⟩
      · exact Or.inr (by simpa [List.filterMap_cons, hc] using h3)
    | some b =>
      rw [checkCells, hc] at h
      by_cases hb : b ∈ seen
      · simp only [hb, if_true, Option.some.injEq] at h
        subst h
        exact Or.inl ⟨hb, by simp [List.filterMap_cons, hc]⟩
      · simp only [hb, if_false] at h
        have hcons : (c :: cs).filterMap CT_Cell.RAttr = b :: cs.filterMap CT_Cell.RAttr := by
          simp [List.filterMap_cons, hc]
        rcases ih h with ⟨h1, h2⟩ | h3
        · rcases List.mem_cons.mp h1 with rfl | h1'
          · refine Or.inr ?_
            have hcount : 0 < (cs.filterMap CT_Cell.RAttr).count a :=
              List.count_pos_iff.mpr h2
            rw [hcons, List.count_cons_self]
            omega
          · exact Or.inl ⟨h1', by rw [hcons]; exact List.mem_cons_of_mem b h2⟩
        · refine Or.inr ?_
          rw [hcons]
          exact le_trans h3 (List.count_le_count_cons ..)

/-! Helper lemmas about the duplicate row/cell pass of `Validate`. -/

theorem checkRows_eq_none_iff {rows : List CT_Row} {seen : List Nat} {name : String} :
    checkRows name seen rows = none ↔
      (rowNums rows).Nodup ∧ (∀ m ∈ rowNums rows, m ∉ seen) ∧
        ∀ r ∈ rows, checkCells [] r.C = none := by
  induction rows generalizing seen with
  | nil => simp [checkRows, rowNums]
  | cons r rs ih =>
    cases hr : r.RAttr with
    | none =>
      cases hcc : checkCells [] r.C with
      | some a =>
        simp only [checkRows, hr, hcc]
        constructor
        · intro h; exact absurd h (by simp)
        · rintro ⟨-, -, h3⟩
          exact absurd (h3 r (by simp)) (by simp [hcc])
      | none =>
        simp only [checkRows, hr, hcc, ih, rowNums, List.filterMap_cons]
        constructor
        · rintro ⟨h1, h2, h3⟩
          refine ⟨h1, h2, fun r' hr' => ?_⟩
          rcases List.mem_cons.mp hr' with rfl | hmem
          · exact hcc
          · exact h3 r' hmem
        · rintro ⟨h1, h2, h3⟩
          exact ⟨h1, h2, fun r' hr' => h3 r' (List.mem_cons_of_mem r hr')⟩
    | some n =>
      by_cases hn : n ∈ seen
      · simp only [checkRows, hr, hn, if_true]
        constructor
        · intro h; exact absurd h (by simp)
        · rintro ⟨-, h2, -⟩
          exact absurd hn (h2 n (by simp [rowNums, List.filterMap_cons, hr]))
      · cases hcc : checkCells [] r.C with
        | some a =>
          simp only [checkRows, hr, hn, if_false, hcc]
          constructor
          · intro h; exact absurd h (by simp)
          · rintro ⟨-, -, h3⟩
            exact absurd (h3 r (by simp)) (by simp [hcc])
        | none =>
          simp only [checkRows, hr, hn, if_false, hcc, ih, rowNums,
            List.filterMap_cons, List.nodup_cons, List.mem_cons]
          constructor
          · rintro ⟨h1, h2, h3⟩
            refine ⟨⟨fun hnl => ?_, h1⟩, fun m hm => ?_, fun r' hr' => ?_⟩
            · exact (h2 n hnl) (by simp)
            · rcases hm with rfl | hm'
              · exact hn
              · intro hs
                exact (h2 m hm') (by simp [hs])
            · rcases hr' with rfl | hmem
              · exact hcc
              · exact h3 r' hmem
          · rintro ⟨⟨hnl, h1⟩, h2, h3⟩
            refine ⟨h1, fun m hm => ?_, fun r' hr' => h3 r' (Or.inr hr')⟩
            simp only [List.mem_cons, not_or]
            exact ⟨fun h => hnl (h ▸ hm), h2 m (Or.inr hm)⟩

theorem checkRows_some {rows : List CT_Row} {seen : List Nat} {name : String}
    {e : VError} (h : checkRows name seen rows = some e) :
    (∃ n, e = VError.reusedRow name n ∧
        ((n ∈ seen ∧ n ∈ rowNums rows) ∨ 2 ≤ (rowNums rows).count n)) ∨
      ∃ r ∈ rows, ∃ a, e = VError.reusedCell name a ∧ checkCells [] r.C = some a := by
  induction rows generalizing seen with
  | nil => simp [checkRows] at h
  | cons r rs ih =>
    cases hr : r.RAttr with
    | none =>
      cases hcc : checkCells [] r.C with
      | some a =>
        simp only [checkRows, hr, hcc] at h
        refine Or.inr ⟨r, by simp, a, ?_, hcc⟩
        simpa using h.symm
      | none =>
        simp only [checkRows, hr, hcc] at h
        rcases ih h with ⟨n, he, hc⟩ | ⟨r', hr', a, he, hcc'⟩
        · refine Or.inl ⟨n, he, ?_⟩
          simpa [rowNums, List.filterMap_cons, hr] using hc
        · exact Or.inr ⟨r', List.mem_cons_of_mem r hr', a, he, hcc'⟩
    | some n =>
      by_cases hn : n ∈ seen
      · simp only [checkRows, hr, hn, if_true] at h
        refine Or.inl ⟨n, by simpa using h.symm, Or.inl ⟨hn, ?_⟩⟩
        simp [rowNums, List.filterMap_cons, hr]
      · cases hcc : checkCells [] r.C with
        | some a =>
          simp only [checkRows, hr, hn, if_false, hcc] at h
          refine Or.inr ⟨r, by simp, a, ?_, hcc⟩
          simpa using h.symm
        | none =>
          simp only [checkRows, hr, hn, if_false, hcc] at h
          rcases ih h with ⟨m, he, hc⟩ | ⟨r', hr', a, he, hcc'⟩
          · refine Or.inl ⟨m, he, ?_⟩
            have hcons : rowNums (r :: rs) = n :: rowNums rs := by
              simp [rowNums, List.filterMap_cons, hr]
            rcases hc with ⟨hmem, hfm⟩ | hcount
            · rcases List.mem_cons.mp hmem with rfl | hmem'
              · refine Or.inr ?_
                have h1 : 0 < (rowNums rs).count m :=
                  List.count_pos_iff.mpr hfm
                rw [hcons, List.count_cons_self]
                omega
              · exact Or.inl ⟨hmem', by rw [hcons]; exact List.mem_cons_of_mem n hfm⟩
            · refine Or.inr ?_
              rw [hcons]
              exact le_trans hcount (List.count_le_count_cons ..)
          · exact Or.inr ⟨r', List.mem_cons_of_mem r hr', a, he, hcc'⟩

/-! Claim theorems. -/

/-- Claim C6: for every sheet state and row number `n`,
`AddNumberedRow(n)` appends exactly one new row carrying explicit number
`n` at the end of the row sequence — also when a row numbered `n`
already exists, since the statement holds for every state and performs
no duplicate check (the function is total, so the call never fails); all
previously stored rows, their order and their cells are unchanged (the
old sequence is an unchanged prefix), the drawing reference and
validator state are untouched, and the returned handle wraps the newly
appended row. -/
theorem addNumberedRow_appends (ws : Worksheet) (n : Nat) :
    (AddNumberedRow ws n).1.sheetData.length = ws.sheetData.length + 1 ∧
    (AddNumberedRow ws n).1.sheetData.take ws.sheetData.length = ws.sheetData ∧
    (AddNumberedRow ws n).1.sheetData.get? ws.sheetData.length =
      some { RAttr := some n, C := [] } ∧
    (AddNumberedRow ws n).2 = { r := ws.sheetData.length } ∧
    (AddNumberedRow ws n).1.drawing = ws.drawing ∧
    (AddNumberedRow ws n).1.validateRes = ws.validateRes := by
  refine ⟨by simp [AddNumberedRow], by simp [AddNumberedRow], ?_, rfl, rfl, rfl⟩
  simpa [AddNumberedRow] using
    List.get?_concat_length ws.sheetData ({ RAttr := some n, C := [] } : CT_Row)

/-- Claim C7: `Rows()` returns exactly one handle per stored row, in the
stored insertion order (the handles dereference to indices
`0, …, length - 1` in order), not sorted by row number; concretely,
after appending rows numbered 5, then 2, then 8 to an empty sheet,
`Rows()` yields rows carrying the numbers 5, 2, 8 in that order. -/
theorem rows_insertion_order (ws : Worksheet) :
    (Rows ws).length = ws.sheetData.length ∧
    (Rows ws).map Row.r = List.range ws.sheetData.length ∧
    (Rows ws528).map (fun h => (ws528.sheetData.get? h.r).map CT_Row.RAttr) =
      [some (some 5), some (some 2), some (some 8)] := by
  refine ⟨by simp [Rows], ?_, by decide⟩
  simp only [Rows, List.map_map]
  rw [show (Row.r ∘ Row.mk) = id from rfl, List.map_id]

/-- Claim C4: calling `EnsureRow(n)` twice with no intervening mutation
returns the same result both times — the same handle to the same
underlying row, with no growth of the row sequence on the second call;
`EnsureRow` scans rows in insertion order and returns the first row
whose explicit number equals `n`, creating a new row with number `n`
only when no stored row matches. -/
theorem ensureRow_idempotent (ws : Worksheet) (n : Nat) :
    EnsureRow (EnsureRow ws n).1 n = EnsureRow ws n ∧
    (∀ i r, ws.sheetData.get? i = some r → r.RAttr = some n →
      (∀ k, k < i → ∀ r2, ws.sheetData.get? k = some r2 → r2.RAttr ≠ some n) →
      EnsureRow ws n = (ws, { r := i })) ∧
    ((∀ r ∈ ws.sheetData, r.RAttr ≠ some n) → EnsureRow ws n = AddNumberedRow ws n) := by
  refine ⟨?_, ?_, ?_⟩
  · cases hf : findRowIdx ws.sheetData n with
    | some i => simp [EnsureRow, hf]
    | none =>
      have h2 : findRowIdx (ws.sheetData ++ [{ RAttr := some n, C := [] }]) n =
          some ws.sheetData.length :=
        findRowIdx_append_of_none hf
      simp [EnsureRow, hf, AddNumberedRow, h2]
  · intro i r hget hr hfirst
    have hidx : findRowIdx ws.sheetData n = some i :=
      findRowIdx_first hget hr hfirst
    simp [EnsureRow, hidx]
  · intro h
    have hnone : findRowIdx ws.sheetData n = none := findRowIdx_eq_none.mpr h
    simp [EnsureRow, hnone]

/-- Witness for C4 at a concrete state: on a sheet with one row numbered
3, `EnsureRow(3)` returns the existing row at index 0 without mutating
the sheet. -/
theorem ensureRow_idempotent_witness :
    EnsureRow wsRow3 3 = (wsRow3, { r := 0 }) :=
  (ensureRow_idempotent wsRow3 3).2.1 0 { RAttr := some 3, C := [] }
    (by decide) (by decide) (fun k hk => absurd hk (Nat.not_lt_zero k))

/-- Claim C9: the row handle returned by `EnsureRow(n)` always refers to
a row carrying explicit number exactly `n` (whether found or created),
so the lookup never matches a row whose number is absent; consequently,
on a sheet containing only unnumbered rows, `EnsureRow(n)` appends a new
row. -/
theorem ensureRow_returns_numbered (ws : Worksheet) (n : Nat) :
    ((EnsureRow ws n).1.sheetData.get? (EnsureRow ws n).2.r).map CT_Row.RAttr =
      some (some n) ∧
    ((∀ r ∈ ws.sheetData, r.RAttr = none) →
      EnsureRow ws n = AddNumberedRow ws n ∧
      (EnsureRow ws n).1.sheetData.length = ws.sheetData.length + 1) := by
  constructor
  · cases hf : findRowIdx ws.sheetData n with
    | some i =>
      obtain ⟨r, hget, hr⟩ := findRowIdx_get hf
      simp only [EnsureRow, hf]
      rw [hget]
      simp [hr]
    | none =>
      have hlast := List.get?_concat_length ws.sheetData
        ({ RAttr := some n, C := [] } : CT_Row)
      simp only [EnsureRow, hf, AddNumberedRow]
      rw [hlast]
      simp
  · intro h
    have hnone : findRowIdx ws.sheetData n = none :=
      findRowIdx_eq_none.mpr (fun r hr => by simp [h r hr])
    exact ⟨by simp [EnsureRow, hnone],
      by simp [EnsureRow, hnone, AddNumberedRow]⟩

/-- Witness for C9 at a concrete state: on a sheet with one unnumbered
row, `EnsureRow(1)` appends a new row. -/
theorem ensureRow_returns_numbered_witness :
    EnsureRow wsUnnumbered 1 = AddNumberedRow wsUnnumbered 1 ∧
    (EnsureRow wsUnnumbered 1).1.sheetData.length =
      wsUnnumbered.sheetData.length + 1 :=
  (ensureRow_returns_numbered wsUnnumbered 1).2 (by decide)

/-- Claim C5 counterexample: on a sheet whose single row carries the
maximum `uint32` row number `2 ^ 32 - 1`, `AddRow()` appends a row
numbered `0` (the `uint32` sum `maxRowID + 1` wraps), so the new row's
number is neither `max + 1` (which is `2 ^ 32`) nor strictly greater
than the existing row number `2 ^ 32 - 1`. -/
theorem addRow_uint32_wrap_counterexample :
    ((AddRow wsMax).1.sheetData.get? 1).map CT_Row.RAttr = some (some 0) ∧
    maxRowID wsMax.sheetData + 1 = 2 ^ 32 ∧
    ((AddRow wsMax).1.sheetData.get? 0).map CT_Row.RAttr =
      some (some (2 ^ 32 - 1)) ∧
    ¬ ((0 : Nat) = maxRowID wsMax.sheetData + 1) ∧
    ¬ ((2 ^ 32 - 1 : Nat) < 0) := by
  decide

/-- Claim C5 (amended): `AddRow()` appends a new row whose explicit
number equals `(maxRowID + 1) mod 2 ^ 32` where `maxRowID` is the
maximum explicit row number (unnumbered rows contributing 0); whenever
this `uint32` sum does not overflow, the new number equals
`maxRowID + 1` and is strictly greater than every explicit row number
present at call time; on a sheet with no numbered rows the first
auto-assigned number is 1. -/
theorem addRow_spec (ws : Worksheet) :
    (AddRow ws).1.sheetData =
      ws.sheetData ++
        [{ RAttr := some ((maxRowID ws.sheetData + 1) % 2 ^ 32), C := [] }] ∧
    (AddRow ws).2 = { r := ws.sheetData.length } ∧
    (maxRowID ws.sheetData + 1 < 2 ^ 32 →
      ∀ r ∈ ws.sheetData, ∀ m, r.RAttr = some m →
        m < (maxRowID ws.sheetData + 1) % 2 ^ 32) ∧
    ((∀ r ∈ ws.sheetData, r.RAttr = none) →
      ((AddRow ws).1.sheetData.get? ws.sheetData.length).map CT_Row.RAttr =
        some (some 1)) := by
  refine ⟨rfl, rfl, ?_, ?_⟩
  · intro hlt r hmem m hm
    rw [Nat.mod_eq_of_lt hlt]
    exact Nat.lt_succ_of_le (le_maxRowID hmem hm)
  · intro h
    have h0 : maxRowID ws.sheetData = 0 := maxRowID_of_unnumbered h
    have hlast := List.get?_concat_length ws.sheetData
      ({ RAttr := some ((maxRowID ws.sheetData + 1) % 2 ^ 32), C := [] } : CT_Row)
    simp only [AddRow, AddNumberedRow] at hlast ⊢
    rw [hlast, h0]
    norm_num

/-- Witness for the amended C5 at a concrete state: on an empty sheet
the first auto-assigned row number is 1. -/
theorem addRow_spec_witness :
    ((AddRow emptyWS).1.sheetData.get? 0).map CT_Row.RAttr = some (some 1) :=
  (addRow_spec emptyWS).2.2.2 (by decide)

/-- Claim C1 counterexample: on sheet `S` holding an unnumbered first
row with cell address `A1` twice, followed by two rows both explicitly
numbered 3, the number 3 occurs on two rows, yet `Validate()` does not
fail with a duplicate-row error naming 3: the scan reaches the
duplicated cell first and returns the duplicate-cell error, refuting
the claimed equivalence for duplicate-row errors. -/
theorem validate_both_duplicates_counterexample :
    Validate metaOK wsBothDup = some (.reusedCell "S" "A1") ∧
    ¬ (rowNums wsBothDup.sheetData).Nodup ∧
    ¬ Validate metaOK wsBothDup = some (.reusedRow "S" 3) := by
  refine ⟨rfl, by decide, ?_⟩
  intro h
  rw [show Validate metaOK wsBothDup = some (.reusedCell "S" "A1") from rfl] at h
  exact VError.noConfusion (Option.some.inj h)

/-- Claim C1 (amended): `Validate()` reports the first duplicate found
scanning rows in stored order (a row's number check precedes its cell
scan), so: a worksheet with all-distinct explicit row numbers and
per-row-distinct explicit addresses passes the duplicate checks and
returns whatever the delegated validators produce (no error when they
succeed); any duplicate-row error names the sheet name and a number
that occurs on two or more rows; any duplicate-cell error names the
sheet name and an address occurring twice within a single row; when no
cell address is duplicated within any row, a duplicate-row error is
returned if and only if some explicit row number is reused; when no row
number is duplicated, a duplicate-cell error is returned if and only if
some address is reused within a single row.  Unnumbered rows and
unaddressed cells are exempt throughout. -/
theorem validate_duplicate_spec (x : CT_Sheet) (ws : Worksheet) :
    ((rowNums ws.sheetData).Nodup → (∀ r ∈ ws.sheetData, (cellAddrs r).Nodup) →
      x.validateRes = none → ws.validateRes = none → Validate x ws = none) ∧
    (∀ s n, Validate x ws = some (.reusedRow s n) →
      s = x.NameAttr ∧ 2 ≤ (rowNums ws.sheetData).count n) ∧
    (∀ s a, Validate x ws = some (.reusedCell s a) →
      s = x.NameAttr ∧ ∃ r ∈ ws.sheetData, 2 ≤ (cellAddrs r).count a) ∧
    (¬ (rowNums ws.sheetData).Nodup → (∀ r ∈ ws.sheetData, (cellAddrs r).Nodup) →
      ∃ n, Validate x ws = some (.reusedRow x.NameAttr n) ∧
        2 ≤ (rowNums ws.sheetData).count n) ∧
    ((rowNums ws.sheetData).Nodup → (∃ r ∈ ws.sheetData, ¬ (cellAddrs r).Nodup) →
      ∃ a, ∃ r ∈ ws.sheetData, Validate x ws = some (.reusedCell x.NameAttr a) ∧
        2 ≤ (cellAddrs r).count a) := by
  refine ⟨?_, ?_, ?_, ?_, ?_⟩
  · intro h1 h2 h3 h4
    have hcr : checkRows x.NameAttr [] ws.sheetData = none :=
      checkRows_eq_none_iff.mpr
        ⟨h1, by simp, fun r hr => checkCells_eq_none_iff.mpr ⟨h2 r hr, by simp⟩⟩
    simp [Validate, hcr, h3, h4]
  · intro s n h
    cases hcr : checkRows x.NameAttr [] ws.sheetData with
    | some e =>
      simp only [Validate, hcr] at h
      have he : e = VError.reusedRow s n := Option.some.inj h
      rcases checkRows_some hcr with ⟨n2, he2, hc⟩ | ⟨r, hrmem, a, he2, hcc⟩
      · rw [he] at he2
        obtain ⟨hs, hn⟩ : s = x.NameAttr ∧ n = n2 := by
          cases he2; exact ⟨rfl, rfl⟩
        subst hs; subst hn
        rcases hc with ⟨hmem, -⟩ | h2
        · simp at hmem
        · exact ⟨rfl, h2⟩
      · rw [he] at he2
        exact VError.noConfusion he2
    | none =>
      simp only [Validate, hcr] at h
      cases hx : x.validateRes with
      | some e => simp [hx] at h
      | none =>
        cases hw : ws.validateRes with
        | some e => simp [hx, hw] at h
        | none => simp [hx, hw] at h
  · intro s a h
    cases hcr : checkRows x.NameAttr [] ws.sheetData with
    | some e =>
      simp only [Validate, hcr] at h
      have he : e = VError.reusedCell s a := Option.some.inj h
      rcases checkRows_some hcr with ⟨n2, he2, -⟩ | ⟨r, hrmem, a2, he2, hcc⟩
      · rw [he] at he2
        exact VError.noConfusion he2
      · rw [he] at he2
        obtain ⟨hs, ha⟩ : s = x.NameAttr ∧ a = a2 := by
          cases he2; exact ⟨rfl, rfl⟩
        subst hs; subst ha
        rcases checkCells_some hcc with ⟨hmem, -⟩ | h2
        · simp at hmem
        · exact ⟨rfl, r, hrmem, h2⟩
    | none =>
      simp only [Validate, hcr] at h
      cases hx : x.validateRes with
      | some e => simp [hx] at h
      | none =>
        cases hw : ws.validateRes with
        | some e => simp [hx, hw] at h
        | none => simp [hx, hw] at h
  · intro hdup hcells
    cases hcr : checkRows x.NameAttr [] ws.sheetData with
    | none =>
      exact absurd (checkRows_eq_none_iff.mp hcr).1 hdup
    | some e =>
      rcases checkRows_some hcr with ⟨n, he, hc⟩ | ⟨r, hrmem, a, he, hcc⟩
      · refine ⟨n, by simp [Validate, hcr, he], ?_⟩
        rcases hc with ⟨hmem, -⟩ | h2
        · simp at hmem
        · exact h2
      · exfalso
        have hnone : checkCells [] r.C = none :=
          checkCells_eq_none_iff.mpr ⟨hcells r hrmem, by simp⟩
        rw [hnone] at hcc
        exact Option.noConfusion hcc
  · intro hnodup hex
    obtain ⟨r0, hr0, hr0dup⟩ := hex
    cases hcr : checkRows x.NameAttr [] ws.sheetData with
    | none =>
      have h3 := (checkRows_eq_none_iff.mp hcr).2.2
      exact absurd (checkCells_eq_none_iff.mp (h3 r0 hr0)).1 hr0dup
    | some e =>
      rcases checkRows_some hcr with ⟨n, he, hc⟩ | ⟨r, hrmem, a, he, hcc⟩
      · exfalso
        rcases hc with ⟨hmem, -⟩ | h2
        · simp at hmem
        · have := List.nodup_iff_count_le_one.mp hnodup n
          omega
      · rcases checkCells_some hcc with ⟨hmem, -⟩ | h2
        · simp at hmem
        · exact ⟨a, r, hrmem, by simp [Validate, hcr, he], h2⟩

/-- Witness for the amended C1 at a concrete state: sheet `S` with rows
numbered 1, 2, 5 and per-row-distinct addresses (the address `A1`
appearing in two different rows) passes `Validate()` when the delegated
validators succeed. -/
theorem validate_duplicate_spec_witness :
    Validate metaOK wsDistinct = none :=
  (validate_duplicate_spec metaOK wsDistinct).1 (by decide) (by decide) rfl rfl

/-- Claim C10: after the duplicate checks pass, `Validate()` consults
the metadata validator before the worksheet-tree validator: when the
metadata validator fails with `e`, the result is the metadata error `e`
for every possible tree-validator outcome (so the tree validator is
never consulted, and when both would fail the metadata error is the one
returned); the tree validator's result is propagated only when the
metadata validator succeeds. -/
theorem validate_meta_before_tree (x : CT_Sheet) (ws : Worksheet)
    (hpass : checkRows x.NameAttr [] ws.sheetData = none) :
    (∀ e, x.validateRes = some e →
      ∀ o, Validate x { ws with validateRes := o } = some (.metaErr e)) ∧
    (x.validateRes = none →
      Validate x ws = ws.validateRes.map VError.wsErr) := by
  constructor
  · intro e he o
    simp [Validate, hpass, he]
  · intro he
    simp [Validate, hpass, he]

/-- Witness for C10 at a concrete state: when the metadata validator
fails and the tree validator also fails, the metadata error is
returned. -/
theorem validate_meta_before_tree_witness :
    Validate metaFail { emptyWS with validateRes := some "tree invalid" } =
      some (.metaErr "meta invalid") :=
  (validate_meta_before_tree metaFail emptyWS (by decide)).1 "meta invalid" rfl
    (some "tree invalid")

/-- Claim C8: `ValidateWithPath(path)` returns exactly the metadata
record's `validateWithPath(path)` result: it performs no duplicate
row/cell checking and never consults the worksheet tree (its result is
identical for every tree), so a sheet whose duplicate checks fail can
still pass `ValidateWithPath` — concretely, sheet `S` with two rows
numbered 3 fails `Validate()` with a duplicate-row error yet
`ValidateWithPath` returns no error. -/
theorem validateWithPath_delegates (x : CT_Sheet) (ws ws2 : Worksheet) (path : String) :
    ValidateWithPath x ws path = x.validateWithPathRes path ∧
    ValidateWithPath x ws path = ValidateWithPath x ws2 path ∧
    Validate metaOK wsDupRow = some (.reusedRow "S" 3) ∧
    ValidateWithPath metaOK wsDupRow "p" = none :=
  ⟨rfl, rfl, rfl, rfl⟩

/-- Claim C2: when the sheet's worksheet tree is first found at position
`i` of the workbook's worksheet-tree sequence (with an aligned
relationship set, per the spec's alignment invariant) and the drawing's
definition is first found at position `j` of the drawing sequence,
`SetDrawing(d)` appends exactly one new relationship entry to
relationship-set `i` — registered with the spreadsheet document type,
the drawing relationship type tag and 1-based part index `j + 1` —
leaves every other relationship set unchanged, and afterwards the
worksheet tree's drawing-reference field equals that new relationship's
identifier. -/
theorem setDrawing_registers (w : Workbook) (s : Sheet) (d : Drawing) (i j : Nat)
    (hi : firstIdxAt w.xws s.ws = some i)
    (hj : firstIdxAt w.drawings d.x = some j)
    (hir : i < w.xwsRels.length)
    (hsw : s.ws < w.heap.length) :
    ∃ rel : Relationship,
      rel.docType = DocType.spreadsheet ∧ rel.partIndex = j + 1 ∧
      rel.relType = drawingType ∧
      (SetDrawing w s d).xwsRels.get? i =
        some { rels := (w.xwsRels.getD i { rels := [] }).rels ++ [rel] } ∧
      (∀ k, ¬ k = i → (SetDrawing w s d).xwsRels.get? k = w.xwsRels.get? k) ∧
      (SetDrawing w s d).xwsRels.length = w.xwsRels.length ∧
      ((SetDrawing w s d).heap.get? s.ws).map Worksheet.drawing =
        some (some { IdAttr := rel.ID }) := by
  obtain ⟨t, ht⟩ : ∃ t, w.heap[s.ws]? = some t := by
    rw [List.getElem?_eq_getElem hsw]
    exact ⟨_, rfl⟩
  have hunfold : SetDrawing w s d =
      { w with
        xwsRels := w.xwsRels.set i (addAutoRelationship
          (w.xwsRels.getD i { rels := [] }) DocType.spreadsheet (j + 1)
          drawingType).1,
        heap := w.heap.set s.ws
          { t with drawing := some { IdAttr := (addAutoRelationship
              (w.xwsRels.getD i { rels := [] }) DocType.spreadsheet (j + 1)
              drawingType).2.ID } } } := by
    simp [SetDrawing, hi, hj, ht]
  refine ⟨(addAutoRelationship (w.xwsRels.getD i { rels := [] })
      DocType.spreadsheet (j + 1) drawingType).2, rfl, rfl, rfl, ?_, ?_, ?_, ?_⟩
  · rw [hunfold]
    simp [List.getElem?_set_self, hir, addAutoRelationship]
  · intro k hk
    rw [hunfold]
    simp [List.getElem?_set_ne (fun h => hk h.symm)]
  · rw [hunfold]
    simp
  · rw [hunfold]
    simp [List.getElem?_set_self, Nat.lt_of_lt_of_le hsw (le_of_eq rfl), hsw]

/-- Witness for C2 at a concrete state: one tracked tree (pointer 0)
aligned with an empty relationship set and one tracked drawing
definition; `SetDrawing` registers one drawing relationship with part
index 1 and records its identifier on the tree. -/
theorem setDrawing_registers_witness :
    ∃ rel : Relationship,
      rel.docType = DocType.spreadsheet ∧ rel.partIndex = 1 ∧
      rel.relType = drawingType ∧
      (SetDrawing wbLinked sheet0 draw7).xwsRels.get? 0 =
        some { rels := [rel] } ∧
      ((SetDrawing wbLinked sheet0 draw7).heap.get? 0).map Worksheet.drawing =
        some (some { IdAttr := rel.ID }) := by
  obtain ⟨rel, h1, h2, h3, h4, h5, h6, h7⟩ :=
    setDrawing_registers wbLinked sheet0 draw7 0 0 rfl rfl (by decide) (by decide)
  refine ⟨rel, h1, h2, h3, ?_, h7⟩
  simpa [wbLinked] using h4

/-- Claim C3: when either identity lookup misses — the sheet's
worksheet tree is not among the workbook's tracked trees, or the
drawing's definition is not among the tracked drawings — `SetDrawing`
still completes (it is a total function): no relationship entry is
added to any relationship set, the workbook's tracked sequences are
unchanged, every other heap entry is untouched, and the worksheet
tree's drawing-reference field is left pointing at an empty
identifier. -/
theorem setDrawing_lookup_miss (w : Workbook) (s : Sheet) (d : Drawing)
    (h : firstIdxAt w.xws s.ws = none ∨ firstIdxAt w.drawings d.x = none) :
    (SetDrawing w s d).xwsRels = w.xwsRels ∧
    (SetDrawing w s d).xws = w.xws ∧
    (SetDrawing w s d).drawings = w.drawings ∧
    (∀ k, ¬ k = s.ws → (SetDrawing w s d).heap.get? k = w.heap.get? k) ∧
    (s.ws < w.heap.length →
      ((SetDrawing w s d).heap.get? s.ws).map Worksheet.drawing =
        some (some { IdAttr := "" })) := by
  have hsd : SetDrawing w s d =
      { w with
        heap :=
          match w.heap.get? s.ws with
          | none => w.heap
          | some t => w.heap.set s.ws { t with drawing := some { IdAttr := "" } } } := by
    rcases h with h1 | h2
    · cases hj : firstIdxAt w.drawings d.x <;> simp [SetDrawing, h1, hj]
    · simp [SetDrawing, h2]
  rw [hsd]
  refine ⟨rfl, rfl, rfl, ?_, ?_⟩
  · intro k hk
    cases hget : w.heap.get? s.ws with
    | none => simp
    | some t => simp [List.getElem?_set_ne (fun hh => hk hh.symm)]
  · intro hsw
    obtain ⟨t, ht⟩ : ∃ t, w.heap.get? s.ws = some t := by
      rw [List.get?_eq_get hsw]
      exact ⟨_, rfl⟩
    simp [ht, List.getElem?_set_self, hsw]

/-- Witness for C3 at a concrete state exercising the miss path where
the sheet's tree (pointer 0, present in the heap but not tracked in
`xws`) is not found while the drawing definition is tracked: the
relationship sets stay empty and the tree's drawing reference holds the
empty identifier. -/
theorem setDrawing_lookup_miss_witness :
    (SetDrawing wbUntracked sheet0 draw5).xwsRels = [] ∧
    ((SetDrawing wbUntracked sheet0 draw5).heap.get? 0).map Worksheet.drawing =
      some (some { IdAttr := "" }) :=
  ⟨(setDrawing_lookup_miss wbUntracked sheet0 draw5 (Or.inl rfl)).1,
   (setDrawing_lookup_miss wbUntracked sheet0 draw5 (Or.inl rfl)).2.2.2.2
     (by decide)⟩

end Spreadsheet
